import Mathlib

/-!
Shallow embedding of paratest (src/paratest.py): the persistence store with
its execution-record rotation, the shared priority queue, the worker loop,
and the coordinator's run pipeline, together with proofs of the spec's
claims about them.
-/

namespace Paratest

/-- Rows of the executions table: (id, source). The timestamp column is
wall-clock metadata that the program logic never reads, so it is omitted. -/
structure ExecRecord where
  id : Nat
  source : String
deriving DecidableEq

/-- Rows of the testtime table: (id, source, test, duration, execution).
Durations are modelled as exact rationals; execution is nullable. -/
structure TimeRecord where
  id : Nat
  source : String
  test : String
  duration : ℚ
  execution : Option Nat
deriving DecidableEq

/-- The two tables of the sqlite database. Rows are kept as lists (newest
first); list order is representation only, queries that need a row order
sort explicitly. -/
structure DB where
  executions : List ExecRecord
  testtime : List TimeRecord
deriving DecidableEq

/-- A freshly created database: both tables empty. -/
def emptyDB : DB := ⟨[], []⟩

/-- State of a Persistence object: the bound source, and the current
execution id, which stays None until a new execution record is created
(Persistence.__init__ sets self.execution = None). -/
structure Persistence where
  source : String
  execution : Option Nat
deriving DecidableEq

/-- SQL comparison `execution <= c` under three-valued logic: a NULL
execution compares as unknown, so the row does not satisfy the predicate. -/
def nullLe : Option Nat → Nat → Bool
  | Option.none, _ => false
  | Option.some e, c => decide (e ≤ c)

/-- Largest element of a list of ids (0 when empty); sqlite assigns a new
rowid of one more than the current largest. -/
def listMax (l : List Nat) : Nat := l.foldr max 0

def DB.maxExecId (db : DB) : Nat := listMax (db.executions.map ExecRecord.id)

def DB.maxTimeId (db : DB) : Nat := listMax (db.testtime.map TimeRecord.id)

/-- Query `select id from executions where source=? order by id desc`. -/
def execIdsDesc (db : DB) (s : String) : List Nat :=
  List.insertionSort (· ≥ ·)
    ((db.executions.filter (fun r => decide (r.source = s))).map ExecRecord.id)

/-- Query `select id from executions where source=? order by id desc
limit 5, 1`: in sqlite `limit 5, 1` means OFFSET 5 LIMIT 1, so this is the
sixth-newest execution id for the source, when one exists. -/
def deprecatedCutoff (db : DB) (s : String) : Option Nat :=
  (execIdsDesc db s)[5]?

/-- The two delete statements of Persistence.initialize: delete every
executions row with id <= c and every testtime row with execution <= c.
Neither delete restricts the source. -/
def pruneBelow (c : Nat) (db : DB) : DB :=
  ⟨db.executions.filter (fun r => !decide (r.id ≤ c)),
   db.testtime.filter (fun row => !nullLe row.execution c)⟩

/-- Query `select max(id) from executions where source=?`. -/
def DB.maxExecIdFor (db : DB) (s : String) : Nat :=
  listMax ((db.executions.filter (fun r => decide (r.source = s))).map ExecRecord.id)

/-- Persistence.initialize, once the schema exists: look up the rotation
cutoff, prune at or below it, insert a fresh execution row for the source,
and remember the source's max execution id as the current execution. -/
def newExecution (p : Persistence) (db : DB) : Persistence × DB :=
  let db1 :=
    match deprecatedCutoff db p.source with
    | Option.none => db
    | Option.some c => pruneBelow c db
  let db2 : DB := ⟨⟨db1.maxExecId + 1, p.source⟩ :: db1.executions, db1.testtime⟩
  (⟨p.source, Option.some (db2.maxExecIdFor p.source)⟩, db2)

/-- Durations selected by `select avg(duration) from testtime where
source=? and test=?`. -/
def rowsFor (db : DB) (s t : String) : List ℚ :=
  (db.testtime.filter (fun r => decide (r.source = s ∧ r.test = t))).map TimeRecord.duration

/-- Persistence.get_priority: sql avg is NULL exactly when no row matches,
and `fetchone()[0] or 0` turns that into 0; otherwise the arithmetic mean. -/
def get_priority (p : Persistence) (db : DB) (t : String) : ℚ :=
  let ds := rowsFor db p.source t
  if ds.isEmpty then 0 else ds.sum / ds.length

/-- Persistence.add: insert one testtime row tagged with the current
execution id (NULL when no execution record was ever created). -/
def add (p : Persistence) (db : DB) (t : String) (d : ℚ) : DB :=
  ⟨db.executions, ⟨db.maxTimeId + 1, p.source, t, d, p.execution⟩ :: db.testtime⟩

/-- One printed line of Persistence.show; the report structure is kept and
the textual float formatting is abstracted. -/
inductive ShowLine
  | noDatabase
  | sourceLine (s : String)
  | testLine (t : String) (avg : ℚ)
deriving DecidableEq

/-- Average reported by `select test, avg(duration) from testtime where
source=? group by test` for one group. -/
def avgDuration (db : DB) (s t : String) : ℚ :=
  (rowsFor db s t).sum / (rowsFor db s t).length

/-- Persistence.show: None models an absent database file, reported as
"No database found"; otherwise one line per distinct source followed by one
line per distinct test of that source with its average duration. -/
def showReport : Option DB → List ShowLine
  | Option.none => [ShowLine.noDatabase]
  | Option.some db =>
    ((db.testtime.map TimeRecord.source).dedup).flatMap (fun s =>
      ShowLine.sourceLine s ::
        (((db.testtime.filter (fun r => decide (r.source = s))).map TimeRecord.test).dedup).map
          (fun t => ShowLine.testLine t (avgDuration db s t)))

/-- Sentinel priority: sys.maxsize. -/
def INFINITE : ℚ := 9223372036854775807

/-- Sentinel payload: the empty string. -/
def FINISH : String := ""

/-- Python tuple order on (priority, tid) entries, as compared by the heap
inside queue.PriorityQueue. -/
def entryLE (a b : ℚ × String) : Bool :=
  decide (a.1 < b.1 ∨ (a.1 = b.1 ∧ a.2 ≤ b.2))

def minEntry (e : ℚ × String) (l : List (ℚ × String)) : ℚ × String :=
  l.foldl (fun a b => if entryLE a b then a else b) e

/-- PriorityQueue.get on a nonempty queue: remove and return a minimal
entry in the tuple order; None models blocking on an empty queue. -/
def pop : List (ℚ × String) → Option ((ℚ × String) × List (ℚ × String))
  | [] => Option.none
  | e :: rest =>
    let m := minEntry e rest
    Option.some (m, (e :: rest).erase m)

/-- Observable steps of one worker, in order of occurrence. -/
inductive Event
  | setupWorkspace
  | teardownWorkspace
  | setupTest
  | teardownTest
  | dequeue (item : String)
  | execOk (tid : String)
  | execFail (tid : String) (msg : String)
deriving DecidableEq

/-- Worker.process: the FINISH sentinel returns immediately; otherwise the
test-execution capability either returns a measured duration, which is
recorded through Persistence.add, or raises, which is caught and logged
(the execFail event) without touching the store. -/
def processStep (exec : String → Except String ℚ) (p : Persistence) (db : DB)
    (tid : String) : DB × List Event :=
  if tid = FINISH then (db, [])
  else
    match exec tid with
    | Except.ok d => (add p db tid d, [Event.execOk tid])
    | Except.error msg => (db, [Event.execFail tid msg])

/-- The while-loop of Worker.run, applied to the successive entries this
worker dequeues: run the setup-test hook, dequeue, process, run the
teardown-test hook, and leave the loop after the iteration that dequeued a
falsy item (the sentinel). Hook scripts are taken to exit with status 0. -/
def workerLoop (exec : String → Except String ℚ) (p : Persistence) :
    DB → List String → DB × List Event
  | db, [] => (db, [])
  | db, tid :: rest =>
    let s := processStep exec p db tid
    let evs := Event.setupTest :: Event.dequeue tid :: (s.2 ++ [Event.teardownTest])
    if tid = FINISH then (s.1, evs)
    else
      let r := workerLoop exec p s.1 rest
      (r.1, evs ++ r.2)

/-- Worker.run: the setup-workspace hook, the loop, the teardown-workspace
hook. -/
def workerRun (exec : String → Except String ℚ) (p : Persistence) (db : DB)
    (items : List String) : DB × List Event :=
  let r := workerLoop exec p db items
  (r.1, Event.setupWorkspace :: (r.2 ++ [Event.teardownWorkspace]))

/-- Worker.run driven by pop on the shared queue. The fuel argument only
bounds the recursion: every iteration removes one entry, so fuel equal to
the queue length never runs out before the sentinel is dequeued. An empty
queue would block the real worker; here it ends the recursion. -/
def workerDrainFuel (exec : String → Except String ℚ) (p : Persistence) :
    Nat → DB → List (ℚ × String) → DB × List Event × List (ℚ × String)
  | 0, db, q => (db, [], q)
  | fuel + 1, db, q =>
    match pop q with
    | Option.none => (db, [], q)
    | Option.some (e, q') =>
      let s := processStep exec p db e.2
      let evs := Event.setupTest :: Event.dequeue e.2 :: (s.2 ++ [Event.teardownTest])
      if e.2 = FINISH then (s.1, evs, q')
      else
        let r := workerDrainFuel exec p fuel s.1 q'
        (r.1, evs ++ r.2.1, r.2.2)

def workerDrain (exec : String → Except String ℚ) (p : Persistence) (db : DB)
    (q : List (ℚ × String)) : DB × List Event × List (ℚ × String) :=
  workerDrainFuel exec p q.length db q

/-- Coordinator steps taken by Paratest.start_workers. -/
inductive CoordEvent
  | startWorker (i : Nat)
  | pushSentinel
deriving DecidableEq

/-- Paratest.start_workers: for each worker in turn, start it and then put
one (INFINITE, FINISH) sentinel on the shared queue. -/
def start_workers (n : Nat) : List CoordEvent :=
  (List.range n).flatMap (fun i => [CoordEvent.startWorker i, CoordEvent.pushSentinel])

/-- Paratest.queue_tests: one (priority, tid) entry per discovered test,
priority looked up in the persistence store. -/
def queue_tests (p : Persistence) (db : DB) (tids : List String) : List (ℚ × String) :=
  tids.map (fun t => (get_priority p db t, t))

/-- Paratest.num_of_workers. -/
def num_of_workers (workspace_num test_number : Nat) : Nat :=
  min workspace_num test_number

def sentinelEntry : ℚ × String := (INFINITE, FINISH)

/-- Outcome of a completed run: how many workers were built, how many
sentinels were pushed, the final store and the final queue content. -/
structure RunReport where
  workers : Nat
  sentinels : Nat
  db : DB
  finalQueue : List (ℚ × String)
deriving DecidableEq

/-- Paratest.run: the setup hook, seeding the queue, building
min(configured workers, discovered tests) workers, starting them with one
sentinel pushed per worker, the workers draining the queue (modelled by the
admissible schedule in which each worker in turn runs until its sentinel;
exact when there is at most one worker), the teardown hook, and the final
assertion that the queue is empty. -/
def runModel (workspace_num : Nat) (setupFails teardownFails : Bool)
    (exec : String → Except String ℚ) (tids : List String)
    (p : Persistence) (db : DB) : Except String RunReport :=
  if setupFails then Except.error "The setup script failed. aborting." else
  let q0 := queue_tests p db tids
  let n := num_of_workers workspace_num tids.length
  let sentinels := List.replicate n sentinelEntry
  let q1 := q0 ++ sentinels
  let final := (List.range n).foldl
    (fun s _ => let r := workerDrain exec p s.1 s.2; (r.1, r.2.2)) (db, q1)
  if teardownFails then
    Except.error "The teardown script failed, but nothing can be done."
  else if final.2.isEmpty then Except.ok ⟨n, sentinels.length, final.1, final.2⟩
  else Except.error "There were unprocessed tests, but all workers are dead. Aborting."

/-- One run action for a one-test suite: a new execution record is created
(with rotation), then the test runs and records duration d. -/
def runOnce (t : String) (d : ℚ) (s : Persistence × DB) : Persistence × DB :=
  let s1 := newExecution s.1 s.2
  (s1.1, add s1.1 s1.2 t d)

/-- M successive run invocations for one source, starting from a freshly
created database holding no records for any source. -/
def iterRun (src t : String) (d : ℚ) : Nat → Persistence × DB
  | 0 => (⟨src, Option.none⟩, emptyDB)
  | M + 1 => runOnce t d (iterRun src t d M)

/-- Execution ids retained for the source after M runs, newest first. -/
def descL : Nat → List Nat
  | 0 => []
  | M + 1 => (M + 1) :: (descL M).take 5

def mkE (src : String) (i : Nat) : ExecRecord := ⟨i, src⟩

def mkT (src t : String) (d : ℚ) (i : Nat) : TimeRecord :=
  ⟨i, src, t, d, Option.some i⟩

/-- Test-hook events of a worker trace. -/
def isTestHook : Event → Bool
  | Event.setupTest => true
  | Event.teardownTest => true
  | _ => false

/-- Test-hook and dequeue events of a worker trace. -/
def isHookOrDequeue : Event → Bool
  | Event.setupTest => true
  | Event.teardownTest => true
  | Event.dequeue _ => true
  | _ => false

/-- Store used in the cross-source deletion example: source B ran once,
then source A ran six more times. -/
def dbB : DB :=
  ⟨[⟨7, "A"⟩, ⟨6, "A"⟩, ⟨5, "A"⟩, ⟨4, "A"⟩, ⟨3, "A"⟩, ⟨2, "A"⟩, ⟨1, "B"⟩], []⟩

/-- Store whose schema exists (one execution record) but which holds no
timing data at all. -/
def dbNoTimes : DB := (newExecution ⟨"s", Option.none⟩ emptyDB).2

/-- Test-execution capability for which every test succeeds in 1 second. -/
def execOne : String → Except String ℚ := fun _ => Except.ok 1

/-- Test-execution capability for which every test raises. -/
def execBoom : String → Except String ℚ := fun _ => Except.error "boom"

/-- Persistence state used in the scenario runs. -/
def pB : Persistence := ⟨"s", Option.some 1⟩

/-- Scenario B queue: t1 with history average 5.0, t2 with no history, and
the single worker's sentinel. -/
def qB : List (ℚ × String) := [(5, "t1"), (0, "t2"), (INFINITE, FINISH)]

/-- Store with a single timing row. -/
def dbOneRow : DB := ⟨[], [⟨1, "s", "t", 2, Option.none⟩]⟩

/-- Store with two timing rows for the same pair, durations 2 and 4. -/
def dbTwo : DB := ⟨[], [⟨1, "s", "t", 2, Option.none⟩, ⟨2, "s", "t", 4, Option.none⟩]⟩

/-- dbTwo with its rows in the opposite order. -/
def dbTwoSwap : DB := ⟨[], [⟨2, "s", "t", 4, Option.none⟩, ⟨1, "s", "t", 2, Option.none⟩]⟩

/-- Store with one source-B execution record and one timing row referencing
it, used in the claim C8 witness. -/
def dbT8 : DB := ⟨[⟨1, "B"⟩], [⟨1, "B", "t", 1, Option.some 1⟩]⟩

/-! Helper lemmas about listMax and the retained-ids list descL. -/

theorem listMax_cons (a : Nat) (l : List Nat) : listMax (a :: l) = max a (listMax l) := rfl

theorem listMax_le {l : List Nat} {B : Nat} (h : ∀ x ∈ l, x ≤ B) : listMax l ≤ B := by
  induction l with
  | nil => exact Nat.zero_le B
  | cons a l ih =>
    rw [listMax_cons]
    exact max_le (h a (List.mem_cons_self a l)) (ih fun x hx => h x (List.mem_cons_of_mem a hx))

theorem descL_succ (M : Nat) : descL (M + 1) = (M + 1) :: (descL M).take 5 := rfl

theorem descL_mem_le {M x : Nat} (h : x ∈ descL M) : x ≤ M := by
  induction M with
  | zero => simp [descL] at h
  | succ M ih =>
    rw [descL_succ] at h
    rcases List.mem_cons.mp h with h1 | h2
    · omega
    · exact Nat.le_succ_of_le (ih (List.take_subset 5 (descL M) h2))

theorem descL_length (M : Nat) : (descL M).length = min M 6 := by
  induction M with
  | zero => simp [descL]
  | succ M ih =>
    rw [descL_succ]
    simp [List.length_take, ih]
    omega

theorem descL_pairwise (M : Nat) : (descL M).Pairwise (fun a b => b < a) := by
  induction M with
  | zero => simp [descL]
  | succ M ih =>
    rw [descL_succ]
    refine List.Pairwise.cons ?_ (List.Pairwise.sublist (List.take_sublist 5 (descL M)) ih)
    intro x hx
    exact Nat.lt_succ_of_le (descL_mem_le (List.take_subset 5 (descL M) hx))

theorem descL_sorted (M : Nat) : List.Sorted (· ≥ ·) (descL M) :=
  (descL_pairwise M).imp fun h => le_of_lt h

theorem listMax_descL (M : Nat) : listMax (descL M) = M := by
  induction M with
  | zero => rfl
  | succ M _ =>
    rw [descL_succ, listMax_cons]
    have h : listMax ((descL M).take 5) ≤ M :=
      listMax_le fun x hx => descL_mem_le (List.take_subset 5 (descL M) hx)
    exact Nat.max_eq_left (by omega)

theorem listMax_take5_descL (M : Nat) : listMax ((descL M).take 5) = M := by
  cases M with
  | zero => rfl
  | succ M =>
    rw [descL_succ, List.take_succ_cons, listMax_cons]
    have h : listMax (((descL M).take 5).take 4) ≤ M :=
      listMax_le fun x hx =>
        descL_mem_le (List.take_subset 5 (descL M) (List.take_subset 4 _ hx))
    exact Nat.max_eq_left (by omega)

theorem descL_decomp {M c : Nat} (hc : (descL M)[5]? = Option.some c) :
    descL M = (descL M).take 5 ++ [c] ∧ ∀ x ∈ (descL M).take 5, c < x := by
  obtain ⟨h5, hval⟩ := List.getElem?_eq_some.mp hc
  constructor
  · conv_lhs => rw [← List.take_append_drop 5 (descL M)]
    congr 1
    rw [List.drop_eq_getElem_cons h5, hval, List.drop_eq_nil_of_le]
    have := descL_length M
    omega
  · intro x hx
    obtain ⟨i, hi, hxi⟩ := List.mem_iff_getElem.mp hx
    have hi5 : i < 5 := by
      have := List.length_take 5 (descL M)
      omega
    have hlt := List.pairwise_iff_getElem.mp (descL_pairwise M) i 5 (by omega) h5 (by omega)
    rw [← hxi, List.getElem_take]
    rw [hval] at hlt
    exact hlt

theorem descL_filter {M c : Nat} (hc : (descL M)[5]? = Option.some c) :
    (descL M).filter (fun i => !decide (i ≤ c)) = (descL M).take 5 := by
  obtain ⟨hdec, hgt⟩ := descL_decomp hc
  conv_lhs => rw [hdec]
  rw [List.filter_append]
  have h1 : ((descL M).take 5).filter (fun i => !decide (i ≤ c)) = (descL M).take 5 :=
    List.filter_eq_self.mpr fun x hx => by
      have := hgt x hx
      simp
      omega
  have h2 : [c].filter (fun i => !decide (i ≤ c)) = ([] : List Nat) := by simp
  rw [h1, h2, List.append_nil]

/-! Evaluating one newExecution step on the closed-form store shape. -/

theorem filter_source_map_mkE (src : String) (l : List Nat) :
    (l.map (mkE src)).filter (fun r => decide (r.source = src)) = l.map (mkE src) :=
  List.filter_eq_self.mpr fun a ha => by
    rcases List.mem_map.mp ha with ⟨i, _, rfl⟩
    simp [mkE]

theorem ids_map_mkE (src : String) (l : List Nat) :
    (l.map (mkE src)).map ExecRecord.id = l := by
  rw [List.map_map]
  exact List.map_id' l

theorem execIdsDesc_closed (src : String) (M : Nat) (T : List TimeRecord) :
    execIdsDesc ⟨(descL M).map (mkE src), T⟩ src = descL M := by
  unfold execIdsDesc
  rw [show (DB.executions ⟨(descL M).map (mkE src), T⟩) = (descL M).map (mkE src) from rfl]
  rw [filter_source_map_mkE, ids_map_mkE]
  exact (descL_sorted M).insertionSort_eq

theorem maxExecIdFor_cons_closed (src : String) (l : List Nat) (T : List TimeRecord) (k : Nat)
    (hk : ∀ x ∈ l, x ≤ k) :
    DB.maxExecIdFor ⟨(k + 1) :: l |>.map (mkE src), T⟩ src = k + 1 := by
  unfold DB.maxExecIdFor
  rw [show (DB.executions ⟨((k + 1) :: l).map (mkE src), T⟩) = ((k + 1) :: l).map (mkE src) from rfl]
  rw [filter_source_map_mkE, ids_map_mkE, listMax_cons]
  exact Nat.max_eq_left (by have := listMax_le hk; omega)

theorem newExecution_state (src t : String) (d : ℚ) (e : Option Nat) (M : Nat) :
    newExecution ⟨src, e⟩ ⟨(descL M).map (mkE src), (descL M).map (mkT src t d)⟩ =
      (⟨src, Option.some (M + 1)⟩,
       ⟨(descL (M + 1)).map (mkE src), ((descL M).take 5).map (mkT src t d)⟩) := by
  have hcut : deprecatedCutoff ⟨(descL M).map (mkE src), (descL M).map (mkT src t d)⟩ src
      = (descL M)[5]? := by
    unfold deprecatedCutoff
    rw [execIdsDesc_closed]
  unfold newExecution
  rw [show (Persistence.source ⟨src, e⟩) = src from rfl] at *
  rw [hcut]
  cases h5 : (descL M)[5]? with
  | none =>
    have hshort : (descL M).length ≤ 5 := List.getElem?_eq_none_iff.mp h5
    have htake : (descL M).take 5 = descL M := List.take_of_length_le hshort
    have hmax : DB.maxExecId ⟨(descL M).map (mkE src), (descL M).map (mkT src t d)⟩ = M := by
      unfold DB.maxExecId
      rw [show (DB.executions ⟨(descL M).map (mkE src), (descL M).map (mkT src t d)⟩)
            = (descL M).map (mkE src) from rfl]
      rw [ids_map_mkE]
      exact listMax_descL M
    simp only [hmax]
    rw [descL_succ, htake]
    have hfor := maxExecIdFor_cons_closed src (descL M) ((descL M).map (mkT src t d)) M
      (fun x hx => descL_mem_le hx)
    rw [show ((M + 1) :: descL M).map (mkE src) = mkE src (M + 1) :: (descL M).map (mkE src)
          from rfl] at hfor
    simp only [List.map_cons] at *
    rw [show (mkE src (M + 1)) = (⟨M + 1, src⟩ : ExecRecord) from rfl] at hfor
    rw [hfor]
    rfl
  | some c =>
    have hfilterE : ((descL M).map (mkE src)).filter (fun r => !decide (r.id ≤ c))
        = ((descL M).take 5).map (mkE src) := by
      rw [List.filter_map, show ((fun r => !decide (ExecRecord.id r ≤ c)) ∘ mkE src)
            = (fun i => !decide (i ≤ c)) from rfl]
      rw [descL_filter h5]
    have hfilterT : ((descL M).map (mkT src t d)).filter (fun row => !nullLe row.execution c)
        = ((descL M).take 5).map (mkT src t d) := by
      rw [List.filter_map, show ((fun row => !nullLe (TimeRecord.execution row) c) ∘ mkT src t d)
            = (fun i => !decide (i ≤ c)) from rfl]
      rw [descL_filter h5]
    simp only [pruneBelow]
    rw [hfilterE, hfilterT]
    have hmax : DB.maxExecId ⟨((descL M).take 5).map (mkE src), ((descL M).take 5).map (mkT src t d)⟩ = M := by
      unfold DB.maxExecId
      rw [show (DB.executions ⟨((descL M).take 5).map (mkE src), ((descL M).take 5).map (mkT src t d)⟩)
            = ((descL M).take 5).map (mkE src) from rfl]
      rw [ids_map_mkE]
      exact listMax_take5_descL M
    simp only [hmax]
    have hfor := maxExecIdFor_cons_closed src ((descL M).take 5) (((descL M).take 5).map (mkT src t d)) M
      (fun x hx => descL_mem_le (List.take_subset 5 (descL M) hx))
    rw [show ((M + 1) :: (descL M).take 5).map (mkE src)
          = mkE src (M + 1) :: ((descL M).take 5).map (mkE src) from rfl] at hfor
    rw [show (mkE src (M + 1)) = (⟨M + 1, src⟩ : ExecRecord) from rfl] at hfor
    rw [hfor, descL_succ]
    simp only [List.map_cons]
    rfl

theorem runOnce_state (src t : String) (d : ℚ) (e : Option Nat) (M : Nat) :
    runOnce t d (⟨src, e⟩, ⟨(descL M).map (mkE src), (descL M).map (mkT src t d)⟩) =
      (⟨src, Option.some (M + 1)⟩,
       ⟨(descL (M + 1)).map (mkE src), (descL (M + 1)).map (mkT src t d)⟩) := by
  have hmaxT : DB.maxTimeId ⟨(descL (M + 1)).map (mkE src), ((descL M).take 5).map (mkT src t d)⟩ = M := by
    unfold DB.maxTimeId
    rw [show (DB.testtime ⟨(descL (M + 1)).map (mkE src), ((descL M).take 5).map (mkT src t d)⟩)
          = ((descL M).take 5).map (mkT src t d) from rfl]
    rw [List.map_map, show (TimeRecord.id ∘ mkT src t d) = (fun i => i) from rfl, List.map_id']
    exact listMax_take5_descL M
  simp only [runOnce, newExecution_state]
  unfold add
  rw [hmaxT]
  rw [show descL (M + 1) = (M + 1) :: (descL M).take 5 from rfl]
  simp only [List.map_cons]
  rfl

theorem iterRun_closed (src t : String) (d : ℚ) (M : Nat) :
    iterRun src t d M =
      (⟨src, if M = 0 then Option.none else Option.some M⟩,
       ⟨(descL M).map (mkE src), (descL M).map (mkT src t d)⟩) := by
  induction M with
  | zero => rfl
  | succ M ih =>
    rw [show iterRun src t d (M + 1) = runOnce t d (iterRun src t d M) from rfl, ih,
        runOnce_state]
    simp

/-! Claim C1: the rotation invariant. -/

/-- Claim C1 (amended): starting from an empty store, after M run
invocations for a source (each one newExecution followed by one recorded
timing, with no records for any other source), exactly min(M, 6) execution
records for that source remain - not min(M, 5) - and no timing record
referencing a pruned execution remains; after 7 successive runs (not 6)
exactly 6 execution records and their timing rows persist and the oldest
is gone. -/
theorem claim_C1_rotation (src t : String) (d : ℚ) (M : Nat) :
    ((iterRun src t d M).2.executions.filter (fun r => decide (r.source = src))).length = min M 6
    ∧ (∀ row ∈ (iterRun src t d M).2.testtime, ∀ e, row.execution = Option.some e →
        ∃ r ∈ (iterRun src t d M).2.executions, r.id = e)
    ∧ (iterRun src t d 7).2.executions.map ExecRecord.id = [7, 6, 5, 4, 3, 2]
    ∧ (iterRun src t d 7).2.testtime.map TimeRecord.execution =
        [Option.some 7, Option.some 6, Option.some 5, Option.some 4, Option.some 3, Option.some 2]
    ∧ mkE src 1 ∉ (iterRun src t d 7).2.executions := by
  refine ⟨?_, ?_, ?_, ?_, ?_⟩
  · rw [iterRun_closed]
    simp only [filter_source_map_mkE]
    rw [List.length_map]
    exact descL_length M
  · rw [iterRun_closed]
    simp only []
    intro row hrow e he
    rcases List.mem_map.mp hrow with ⟨i, hi, rfl⟩
    have hie : i = e := by
      simpa [mkT] using he
    exact ⟨mkE src i, List.mem_map.mpr ⟨i, hi, rfl⟩, by simp [mkE, hie]⟩
  · rw [iterRun_closed]
    simp only [ids_map_mkE]
    decide
  · rw [iterRun_closed]
    simp only [List.map_map]
    rw [show (TimeRecord.execution ∘ mkT src t d) = (fun i => Option.some i) from rfl]
    decide
  · rw [iterRun_closed]
    simp only []
    intro h
    rcases List.mem_map.mp h with ⟨i, hi, heq⟩
    have : i = 1 := by simpa [mkE, ExecRecord.mk.injEq] using heq
    subst this
    revert hi
    decide

/-- Witness for claim C1 at M = 3. -/
theorem claim_C1_rotation_witness :
    ((iterRun "s" "t" 1 3).2.executions.filter (fun r => decide (r.source = "s"))).length = min 3 6
    ∧ ∃ r ∈ (iterRun "s" "t" 1 3).2.executions, r.id = 3 := by
  refine ⟨(claim_C1_rotation "s" "t" 1 3).1, ?_⟩
  exact (claim_C1_rotation "s" "t" 1 3).2.1 (mkT "s" "t" 1 3) (by decide) 3 (by decide)

/-- Counterexample to claim C1 as stated: after 6 runs for one source the
store holds 6 execution records for it, not min(6, 5) = 5. -/
theorem claim_C1_counterexample :
    ((iterRun "s" "t" 1 6).2.executions.filter (fun r => decide (r.source = "s"))).length ≠ min 6 5 := by
  decide

/-! Claim C2: sentinel pushes interleaved with worker starts. -/

theorem start_workers_succ (n : Nat) :
    start_workers (n + 1)
      = start_workers n ++ [CoordEvent.startWorker n, CoordEvent.pushSentinel] := by
  unfold start_workers
  rw [List.range_succ, List.flatMap_append]
  rfl

theorem start_workers_length (n : Nat) : (start_workers n).length = 2 * n := by
  induction n with
  | zero => rfl
  | succ n ih =>
    rw [start_workers_succ, List.length_append, ih]
    simp
    omega

/-- Claim C2 (amended): run pushes exactly one termination sentinel per
constructed worker, but the pushes are interleaved with the starts: worker
i is started and its sentinel is pushed immediately afterwards, before
worker i+1 is started; the sentinels are not all pushed after all workers
have been started. -/
theorem claim_C2_sentinel_per_worker (n : Nat) :
    (start_workers n).countP (fun e => decide (e = CoordEvent.pushSentinel)) = n
    ∧ ∀ i, i < n →
        (start_workers n)[2 * i]? = Option.some (CoordEvent.startWorker i)
        ∧ (start_workers n)[2 * i + 1]? = Option.some CoordEvent.pushSentinel := by
  induction n with
  | zero => exact ⟨rfl, fun i hi => absurd hi (Nat.not_lt_zero i)⟩
  | succ n ih =>
    constructor
    · rw [start_workers_succ, List.countP_append, ih.1]
      rfl
    · intro i hi
      rcases Nat.lt_succ_iff_lt_or_eq.mp hi with hlt | heq
      · have h0 : 2 * i < (start_workers n).length := by rw [start_workers_length]; omega
        have h1 : 2 * i + 1 < (start_workers n).length := by rw [start_workers_length]; omega
        rw [start_workers_succ]
        rw [List.getElem?_append_left h0, List.getElem?_append_left h1]
        exact ih.2 i hlt
      · subst heq
        have h0 : (start_workers i).length ≤ 2 * i := by rw [start_workers_length]
        have h1 : (start_workers i).length ≤ 2 * i + 1 := by rw [start_workers_length]; omega
        rw [start_workers_succ]
        rw [List.getElem?_append_right h0, List.getElem?_append_right h1, start_workers_length]
        constructor
        · rw [show 2 * i - 2 * i = 0 from by omega]
          rfl
        · rw [show 2 * i + 1 - 2 * i = 1 from by omega]
          rfl

/-- Witness for claim C2 at n = 2. -/
theorem claim_C2_witness :
    (start_workers 2).countP (fun e => decide (e = CoordEvent.pushSentinel)) = 2
    ∧ (start_workers 2)[2 * 1]? = Option.some (CoordEvent.startWorker 1)
    ∧ (start_workers 2)[2 * 1 + 1]? = Option.some CoordEvent.pushSentinel := by
  refine ⟨(claim_C2_sentinel_per_worker 2).1, ?_, ?_⟩
  · exact ((claim_C2_sentinel_per_worker 2).2 1 (by decide)).1
  · exact ((claim_C2_sentinel_per_worker 2).2 1 (by decide)).2

/-- Counterexample to claim C2 as stated: with two workers the trace is
start 0, push, start 1, push - the first sentinel is pushed before the
second worker is started. -/
theorem claim_C2_counterexample :
    ¬ (start_workers 2 = (List.range 2).map CoordEvent.startWorker
        ++ List.replicate 2 CoordEvent.pushSentinel) := by
  decide

/-! Claim C3: the show report. -/

/-- Claim C3 (amended): showReport is a total function, so show never
raises; when the database file does not exist it reports "No database
found"; when the file exists it lists, for every distinct source, every
test with its current average duration. A store whose file exists but
holds no timing rows yields an empty listing, not an explicit no-data
message (see the counterexample). -/
theorem claim_C3_show_report :
    showReport Option.none = [ShowLine.noDatabase]
    ∧ ∀ (db : DB), ∀ row ∈ db.testtime,
        ShowLine.sourceLine row.source ∈ showReport (Option.some db)
        ∧ ShowLine.testLine row.test (avgDuration db row.source row.test)
            ∈ showReport (Option.some db) := by
  refine ⟨rfl, ?_⟩
  intro db row hrow
  simp only [showReport]
  have hsrc : row.source ∈ (db.testtime.map TimeRecord.source).dedup :=
    List.mem_dedup.mpr (List.mem_map.mpr ⟨row, hrow, rfl⟩)
  constructor
  · exact List.mem_flatMap.mpr ⟨row.source, hsrc, List.mem_cons_self _ _⟩
  · refine List.mem_flatMap.mpr ⟨row.source, hsrc, List.mem_cons_of_mem _ ?_⟩
    refine List.mem_map.mpr ⟨row.test, ?_, rfl⟩
    refine List.mem_dedup.mpr (List.mem_map.mpr ⟨row, ?_, rfl⟩)
    exact List.mem_filter.mpr ⟨hrow, by simp⟩

/-- Witness for claim C3 on a one-row store. -/
theorem claim_C3_witness :
    ShowLine.sourceLine "s" ∈ showReport (Option.some dbOneRow)
    ∧ ShowLine.testLine "t" (avgDuration dbOneRow "s" "t") ∈ showReport (Option.some dbOneRow) :=
  claim_C3_show_report.2 dbOneRow ⟨1, "s", "t", 2, Option.none⟩ (by decide)

/-- Counterexample to claim C3 as stated: a store whose schema exists but
which holds no timing data produces an empty report with no explicit
no-data line. -/
theorem claim_C3_counterexample :
    dbNoTimes.testtime = [] ∧ showReport (Option.some dbNoTimes) = []
    ∧ ShowLine.noDatabase ∉ showReport (Option.some dbNoTimes) := by
  decide

/-! Claim C4: get_priority is zero without history, otherwise the mean,
independent of insertion order. -/

/-- Claim C4: get_priority returns 0 when no timing row matches the
(source, test) pair, otherwise the arithmetic mean of all retained
durations for the pair, and its value is invariant under permutations of
the stored timing rows (insertion order does not matter). -/
theorem claim_C4_get_priority (p : Persistence) (db : DB) (t : String) :
    (rowsFor db p.source t = [] → get_priority p db t = 0)
    ∧ (rowsFor db p.source t ≠ [] →
        get_priority p db t = (rowsFor db p.source t).sum / (rowsFor db p.source t).length)
    ∧ ∀ (E E' : List ExecRecord) (l l' : List TimeRecord), l.Perm l' →
        get_priority p ⟨E, l⟩ t = get_priority p ⟨E', l'⟩ t := by
  refine ⟨?_, ?_, ?_⟩
  · intro h
    simp [get_priority, h]
  · intro h
    simp [get_priority, List.isEmpty_iff, h]
  · intro E E' l l' hperm
    have hrows : (rowsFor ⟨E, l⟩ p.source t).Perm (rowsFor ⟨E', l'⟩ p.source t) :=
      (hperm.filter _).map _
    have hlen : (rowsFor ⟨E, l⟩ p.source t).length = (rowsFor ⟨E', l'⟩ p.source t).length :=
      hrows.length_eq
    have hsum : (rowsFor ⟨E, l⟩ p.source t).sum = (rowsFor ⟨E', l'⟩ p.source t).sum :=
      hrows.sum_eq
    by_cases hnil : rowsFor ⟨E, l⟩ p.source t = []
    · have hnil' : rowsFor ⟨E', l'⟩ p.source t = [] :=
        List.length_eq_zero.mp (by rw [← hlen, hnil]; rfl)
      simp [get_priority, hnil, hnil']
    · have hnil' : rowsFor ⟨E', l'⟩ p.source t ≠ [] := fun h =>
        hnil (List.length_eq_zero.mp (by rw [hlen, h]; rfl))
      simp [get_priority, List.isEmpty_iff, hnil, hnil', hsum, hlen]

/-- Witness for claim C4: an empty store gives priority 0; a store with
two rows of durations 2 and 4 gives their mean; swapping the two rows
leaves the value unchanged. -/
theorem claim_C4_witness :
    get_priority ⟨"s", Option.none⟩ emptyDB "t" = 0
    ∧ get_priority ⟨"s", Option.none⟩ dbTwo "t"
        = (rowsFor dbTwo "s" "t").sum / (rowsFor dbTwo "s" "t").length
    ∧ get_priority ⟨"s", Option.none⟩ dbTwo "t" = get_priority ⟨"s", Option.none⟩ dbTwoSwap "t" := by
  refine ⟨?_, ?_, ?_⟩
  · exact (claim_C4_get_priority ⟨"s", Option.none⟩ emptyDB "t").1 (by decide)
  · exact (claim_C4_get_priority ⟨"s", Option.none⟩ dbTwo "t").2.1 (by decide)
  · exact (claim_C4_get_priority ⟨"s", Option.none⟩ dbTwo "t").2.2 []
      [] dbTwo.testtime dbTwoSwap.testtime (by decide)

/-! Claim C5: setup-test and teardown-test pair around every dequeue. -/

theorem processStep_filter (exec : String → Except String ℚ) (p : Persistence) (db : DB)
    (t : String) : ((processStep exec p db t).2).filter isHookOrDequeue = [] := by
  unfold processStep
  by_cases ht : t = FINISH
  · simp [ht]
  · cases hx : exec t <;> simp [ht, hx, isHookOrDequeue]

theorem workerLoop_filter (exec : String → Except String ℚ) (p : Persistence) :
    ∀ (ts : List String) (db : DB), (∀ x ∈ ts, x ≠ FINISH) →
      (workerLoop exec p db (ts ++ [FINISH])).2.filter isHookOrDequeue
        = (ts ++ [FINISH]).flatMap (fun i => [Event.setupTest, Event.dequeue i, Event.teardownTest])
  | [], db, _ => by
    simp [workerLoop, processStep, FINISH, isHookOrDequeue]
  | t :: ts, db, hts => by
    have ht : t ≠ FINISH := hts t (List.mem_cons_self t ts)
    have hrest : ∀ x ∈ ts, x ≠ FINISH := fun x hx => hts x (List.mem_cons_of_mem t hx)
    rw [List.cons_append]
    simp only [workerLoop, if_neg ht]
    rw [List.filter_append]
    rw [workerLoop_filter exec p ts (processStep exec p db t).1 hrest]
    rw [List.filter_cons, List.filter_cons, List.filter_append, processStep_filter]
    simp [isHookOrDequeue]

theorem countP_setup_blocks (l : List String) :
    ((l.flatMap (fun i => [Event.setupTest, Event.dequeue i, Event.teardownTest])).countP
      (fun e => decide (e = Event.setupTest))) = l.length := by
  induction l with
  | nil => rfl
  | cons a l ih => simp [List.flatMap_cons, List.countP_append, ih, List.countP_cons]

theorem countP_teardown_blocks (l : List String) :
    ((l.flatMap (fun i => [Event.setupTest, Event.dequeue i, Event.teardownTest])).countP
      (fun e => decide (e = Event.teardownTest))) = l.length := by
  induction l with
  | nil => rfl
  | cons a l ih => simp [List.flatMap_cons, List.countP_append, ih, List.countP_cons]

theorem countP_setup_via_filter (tr : List Event) :
    tr.countP (fun e => decide (e = Event.setupTest))
      = (tr.filter isHookOrDequeue).countP (fun e => decide (e = Event.setupTest)) := by
  rw [List.countP_filter]
  have h : (fun a => decide (a = Event.setupTest) && isHookOrDequeue a)
      = (fun a => decide (a = Event.setupTest)) := by
    funext a
    cases a <;> simp [isHookOrDequeue]
  rw [h]

theorem countP_teardown_via_filter (tr : List Event) :
    tr.countP (fun e => decide (e = Event.teardownTest))
      = (tr.filter isHookOrDequeue).countP (fun e => decide (e = Event.teardownTest)) := by
  rw [List.countP_filter]
  have h : (fun a => decide (a = Event.teardownTest) && isHookOrDequeue a)
      = (fun a => decide (a = Event.teardownTest)) := by
    funext a
    cases a <;> simp [isHookOrDequeue]
  rw [h]

/-- Claim C5: a worker that dequeues k real tests and then the sentinel
runs the setup-test hook before each dequeue and the teardown-test hook
after each dequeue, including once more around the sentinel dequeue, so
each hook runs exactly k + 1 times and the hook and dequeue events of the
trace are exactly the blocks setup-test, dequeue, teardown-test in order. -/
theorem claim_C5_hook_pairing (exec : String → Except String ℚ) (p : Persistence) (db : DB)
    (ts : List String) (h : ∀ x ∈ ts, x ≠ FINISH) :
    (workerRun exec p db (ts ++ [FINISH])).2.countP (fun e => decide (e = Event.setupTest))
        = ts.length + 1
    ∧ (workerRun exec p db (ts ++ [FINISH])).2.countP (fun e => decide (e = Event.teardownTest))
        = ts.length + 1
    ∧ (workerRun exec p db (ts ++ [FINISH])).2.filter isHookOrDequeue
        = (ts ++ [FINISH]).flatMap (fun i => [Event.setupTest, Event.dequeue i, Event.teardownTest]) := by
  have hloop := workerLoop_filter exec p ts db h
  have htrace : (workerRun exec p db (ts ++ [FINISH])).2.filter isHookOrDequeue
      = (ts ++ [FINISH]).flatMap (fun i => [Event.setupTest, Event.dequeue i, Event.teardownTest]) := by
    unfold workerRun
    rw [List.filter_cons, List.filter_append]
    rw [hloop]
    simp [isHookOrDequeue]
  refine ⟨?_, ?_, htrace⟩
  · rw [countP_setup_via_filter, htrace, countP_setup_blocks]
    simp
  · rw [countP_teardown_via_filter, htrace, countP_teardown_blocks]
    simp

/-- Witness for claim C5 with one real test. -/
theorem claim_C5_witness :
    (workerRun execOne pB emptyDB (["t1"] ++ [FINISH])).2.countP
        (fun e => decide (e = Event.setupTest)) = 2
    ∧ (workerRun execOne pB emptyDB (["t1"] ++ [FINISH])).2.countP
        (fun e => decide (e = Event.teardownTest)) = 2 := by
  refine ⟨?_, ?_⟩
  · exact (claim_C5_hook_pairing execOne pB emptyDB ["t1"] (by decide)).1
  · exact (claim_C5_hook_pairing execOne pB emptyDB ["t1"] (by decide)).2.1

/-! Claim C6: pop returns the minimum-priority entry. -/

theorem minEntry_spec : ∀ (l : List (ℚ × String)) (e : ℚ × String),
    minEntry e l ∈ e :: l ∧ (minEntry e l).1 ≤ e.1 ∧ ∀ x ∈ l, (minEntry e l).1 ≤ x.1
  | [], e => ⟨List.mem_cons_self e [], le_refl _, by simp⟩
  | b :: l, e => by
    have hstep : minEntry e (b :: l) = minEntry (if entryLE e b then e else b) l := rfl
    obtain ⟨hmem, hle, hall⟩ := minEntry_spec l (if entryLE e b then e else b)
    have hfst : (if entryLE e b then e else b).1 ≤ e.1
        ∧ (if entryLE e b then e else b).1 ≤ b.1 := by
      by_cases hc : entryLE e b = true
      · rw [if_pos hc]
        have hp : e.1 < b.1 ∨ (e.1 = b.1 ∧ e.2 ≤ b.2) := by
          simpa [entryLE] using hc
        refine ⟨le_refl _, ?_⟩
        rcases hp with hp | hp
        · exact le_of_lt hp
        · exact le_of_eq hp.1
      · rw [if_neg hc]
        have hp : ¬ (e.1 < b.1 ∨ (e.1 = b.1 ∧ e.2 ≤ b.2)) := by
          simpa [entryLE] using hc
        exact ⟨le_of_not_lt fun hlt => hp (Or.inl hlt), le_refl _⟩
    refine ⟨?_, ?_, ?_⟩
    · rw [hstep]
      rcases List.mem_cons.mp hmem with h | h
      · by_cases hc : entryLE e b = true
        · rw [if_pos hc] at h ⊢
          rw [h]
          exact List.mem_cons_self _ _
        · rw [if_neg hc] at h ⊢
          rw [h]
          exact List.mem_cons_of_mem _ (List.mem_cons_self _ _)
      · exact List.mem_cons_of_mem _ (List.mem_cons_of_mem _ h)
    · rw [hstep]
      exact le_trans hle hfst.1
    · rw [hstep]
      intro x hx
      rcases List.mem_cons.mp hx with h | h
      · rw [h]
        exact le_trans hle hfst.2
      · exact hall x h

/-- Claim C6: pop always returns a minimum-priority entry of the current
queue, so global dequeue order follows ascending priority; in scenario B,
with a single worker, the history-less t2 (priority 0) is dequeued and
executed before t1 (history average 5). -/
theorem claim_C6_pop_min :
    (∀ (q q' : List (ℚ × String)) (e : ℚ × String), pop q = Option.some (e, q') →
        e ∈ q ∧ ∀ x ∈ q, e.1 ≤ x.1)
    ∧ (workerDrain execOne pB emptyDB qB).2.1
        = [Event.setupTest, Event.dequeue "t2", Event.execOk "t2", Event.teardownTest,
           Event.setupTest, Event.dequeue "t1", Event.execOk "t1", Event.teardownTest,
           Event.setupTest, Event.dequeue FINISH, Event.teardownTest] := by
  constructor
  · intro q q' e hpop
    cases q with
    | nil => simp [pop] at hpop
    | cons h rest =>
      simp only [pop, Option.some.injEq, Prod.mk.injEq] at hpop
      obtain ⟨hmem, hle, hall⟩ := minEntry_spec rest h
      rw [← hpop.1]
      refine ⟨hmem, ?_⟩
      intro x hx
      rcases List.mem_cons.mp hx with h1 | h1
      · rw [h1]
        exact hle
      · exact hall x h1
  · decide

/-- Witness for claim C6 on the scenario-B queue. -/
theorem claim_C6_witness :
    ((0 : ℚ), "t2") ∈ qB ∧ (0 : ℚ) ≤ (5 : ℚ) := by
  have h := claim_C6_pop_min.1 qB [(5, "t1"), (INFINITE, FINISH)] ((0 : ℚ), "t2") (by decide)
  exact ⟨h.1, h.2 ((5 : ℚ), "t1") (by decide)⟩

/-! Claim C7: a raising test execution is contained. -/

/-- Claim C7: when the test-execution capability raises, the worker logs
the failure, records no timing row, does not abort, and proceeds to the
next queue item; a timing row is recorded exactly when execution
succeeds. -/
theorem claim_C7_test_failure (exec : String → Except String ℚ) (p : Persistence) (db : DB)
    (tid : String) (rest : List String) (h : tid ≠ FINISH) :
    (∀ msg, exec tid = Except.error msg →
        processStep exec p db tid = (db, [Event.execFail tid msg])
        ∧ workerLoop exec p db (tid :: rest)
            = ((workerLoop exec p db rest).1,
               Event.setupTest :: Event.dequeue tid :: Event.execFail tid msg ::
                 Event.teardownTest :: (workerLoop exec p db rest).2))
    ∧ (∀ dur, exec tid = Except.ok dur →
        processStep exec p db tid = (add p db tid dur, [Event.execOk tid])) := by
  constructor
  · intro msg hmsg
    have hp : processStep exec p db tid = (db, [Event.execFail tid msg]) := by
      simp [processStep, h, hmsg]
    refine ⟨hp, ?_⟩
    simp only [workerLoop, if_neg h, hp]
    simp
  · intro dur hdur
    simp [processStep, h, hdur]

/-- Witness for claim C7: a concrete failing test does not change the
store and the worker goes on to dequeue the sentinel. -/
theorem claim_C7_witness :
    processStep execBoom pB emptyDB "t1" = (emptyDB, [Event.execFail "t1" "boom"])
    ∧ workerLoop execBoom pB emptyDB ["t1", FINISH]
        = ((workerLoop execBoom pB emptyDB [FINISH]).1,
           Event.setupTest :: Event.dequeue "t1" :: Event.execFail "t1" "boom" ::
             Event.teardownTest :: (workerLoop execBoom pB emptyDB [FINISH]).2) :=
  (claim_C7_test_failure execBoom pB emptyDB "t1" [FINISH] (by decide)).1 "boom" rfl

/-! Claim C8: rotation deletes cross source boundaries. -/

/-- Claim C8: the rotation deletes are not confined to the initializing
source: every execution row with id at or below the cutoff, and every
timing row whose execution is at or below the cutoff, is removed whatever
its source; on the dbB store, initialize for source A (cutoff 2) deletes
source B's execution record. -/
theorem claim_C8_cross_source_delete (c : Nat) (db : DB) :
    (∀ r ∈ db.executions, r.id ≤ c → r ∉ (pruneBelow c db).executions)
    ∧ (∀ row ∈ db.testtime, ∀ e, row.execution = Option.some e → e ≤ c →
        row ∉ (pruneBelow c db).testtime)
    ∧ (deprecatedCutoff dbB "A" = Option.some 2
       ∧ (⟨1, "B"⟩ : ExecRecord) ∈ dbB.executions
       ∧ (⟨1, "B"⟩ : ExecRecord) ∉ (newExecution ⟨"A", Option.none⟩ dbB).2.executions) := by
  refine ⟨?_, ?_, by decide⟩
  · intro r _ hrc hmem
    have hpass := (List.mem_filter.mp hmem).2
    simp at hpass
    omega
  · intro row _ e he hec hmem
    have hpass := (List.mem_filter.mp hmem).2
    rw [he] at hpass
    simp [nullLe] at hpass
    omega

/-- Witness for claim C8 on a concrete store. -/
theorem claim_C8_witness :
    (⟨1, "B"⟩ : ExecRecord) ∉ (pruneBelow 2 dbT8).executions
    ∧ (⟨1, "B", "t", 1, Option.some 1⟩ : TimeRecord) ∉ (pruneBelow 2 dbT8).testtime := by
  have h := claim_C8_cross_source_delete 2 dbT8
  exact ⟨h.1 ⟨1, "B"⟩ (by decide) (by decide),
    h.2.1 ⟨1, "B", "t", 1, Option.some 1⟩ (by decide) 1 (by decide) (by decide)⟩

/-! Claim C9: a run with zero discovered tests completes cleanly. -/

/-- Claim C9: a run that discovers zero tests completes without raising
whenever the run-wide setup and teardown hooks succeed: min(configured
workers, 0) = 0 workers are created, zero sentinels are pushed, the queue
stays empty and the final drain check passes. -/
theorem claim_C9_zero_tests (w : Nat) (exec : String → Except String ℚ)
    (p : Persistence) (db : DB) :
    runModel w false false exec [] p db = Except.ok ⟨0, 0, db, []⟩ := by
  simp [runModel, queue_tests, num_of_workers]

/-! Claim C10: add without initialize inserts a NULL-execution row. -/

/-- Claim C10: calling add on a Persistence whose initialize was never run
(current execution None) succeeds against an existing schema and inserts a
timing row whose execution id is NULL; that row is selected by
get_priority's filter like any other row for the pair, and no rotation
prune ever removes it, because a NULL execution never satisfies
execution <= cutoff. -/
theorem claim_C10_null_execution (src t : String) (d : ℚ) (db : DB) :
    (add ⟨src, Option.none⟩ db t d).testtime
        = ⟨db.maxTimeId + 1, src, t, d, Option.none⟩ :: db.testtime
    ∧ rowsFor (add ⟨src, Option.none⟩ db t d) src t = d :: rowsFor db src t
    ∧ (∀ c, nullLe Option.none c = false)
    ∧ (∀ row ∈ db.testtime, row.execution = Option.none →
        ∀ p' : Persistence, row ∈ (newExecution p' db).2.testtime) := by
  refine ⟨rfl, ?_, fun c => rfl, ?_⟩
  · unfold rowsFor add
    simp
  · intro row hrow hnull p'
    cases hcut : deprecatedCutoff db p'.source with
    | none =>
      simp only [newExecution, hcut]
      exact hrow
    | some c =>
      simp only [newExecution, hcut, pruneBelow]
      exact List.mem_filter.mpr ⟨hrow, by rw [hnull]; rfl⟩

/-- Witness for claim C10 on the one-row store. -/
theorem claim_C10_witness :
    rowsFor (add ⟨"s", Option.none⟩ dbOneRow "t" 1) "s" "t" = 1 :: rowsFor dbOneRow "s" "t"
    ∧ (⟨1, "s", "t", 2, Option.none⟩ : TimeRecord)
        ∈ (newExecution ⟨"x", Option.some 5⟩ dbOneRow).2.testtime := by
  refine ⟨(claim_C10_null_execution "s" "t" 1 dbOneRow).2.1, ?_⟩
  exact (claim_C10_null_execution "s" "t" 1 dbOneRow).2.2.2
    ⟨1, "s", "t", 2, Option.none⟩ (by decide) (by decide) ⟨"x", Option.some 5⟩

end Paratest
